import Mathlib

set_option maxHeartbeats 1000000

namespace SemanticKB

/-- Configuration constant ERROR_TOLERANCE (postgres_api.py line 3). -/
def ERROR_TOLERANCE : Nat := 5

/-- Configuration constant MAX_ENTITY_LENGTH (postgres_api.py line 4). -/
def MAX_ENTITY_LENGTH : Nat := 50

/-- Root heading sentinel text ROOT_NODE_NAME (postgres_api.py line 5). -/
def ROOT_NODE_NAME : String := "ROOT"

/-- Helper str_conv (postgres_api.py lines 8-9). It is meant to render an
iterable as a Postgres array literal, but the conditional reads: empty string
when the iterable is non-empty, else the Python str of the iterable stripped
of its first and last character. The argument emptyReprTrimmed stands for that
stripped rendering of the, at that point necessarily empty, iterable: "et("
for a Python set, "" for a Python list. -/
def str_conv (iterable : List String) (emptyReprTrimmed : String)
    (start : String) (stop : String) : String :=
  start ++ (if iterable.length > 0 then "" else emptyReprTrimmed) ++ stop

/-- Python str(s)[1:-1] where s is the empty set: str(set()) is "set()", which
stripped of its outer characters leaves "et(". -/
def pySetEmptyTrimmed : String := "et("

/-- Row of the semantic_kb.entities table (postgres_api.py lines 32-36). -/
structure Entity where
  entity_id : Nat
  entity : String
  deriving DecidableEq

/-- Row of the semantic_kb.headings table (postgres_api.py lines 38-45). -/
structure Heading where
  heading_id : Nat
  heading : String
  parent_id : Option Nat
  deriving DecidableEq

/-- Row of the semantic_kb.sentences table (postgres_api.py lines 47-55). The
dependencies column holds the text produced by str_conv; heading_id is
nullable. -/
structure SentenceRow where
  sentence_id : Nat
  sentence : String
  dependencies : String
  heading_id : Option Nat
  deriving DecidableEq

/-- Row of the semantic_kb.normalizations table (postgres_api.py lines 57-62). -/
structure Normalization where
  sentence_id : Nat
  entity_id : Nat
  deriving DecidableEq

/-- Row of the semantic_kb.frames table (postgres_api.py lines 64-69). -/
structure Frame where
  frame : String
  sentence_ids : List Nat
  deriving DecidableEq

/-- Logical database state: the five relations plus the serial id counters. -/
structure Store where
  entities : List Entity
  headings : List Heading
  sentences : List SentenceRow
  normalizations : List Normalization
  frames : List Frame
  nextEntityId : Nat
  nextHeadingId : Nat
  nextSentenceId : Nat
  deriving DecidableEq

/-- State created by create_schema (postgres_api.py lines 25-143): empty
tables except for the ROOT sentinel heading with NULL parent, with the serial
counters positioned after it. -/
def create_schema : Store :=
  { entities := []
    headings := [⟨1, ROOT_NODE_NAME, none⟩]
    sentences := []
    normalizations := []
    frames := []
    nextEntityId := 1
    nextHeadingId := 2
    nextSentenceId := 1 }

/-- Python truthiness applied at postgres_api.py lines 167 and 171: an absent
value and the integer 0 are both falsy and replaced by 1. -/
def pyIntOrOne : Option Nat → Nat
  | none => 1
  | some p => if p = 0 then 1 else p

/-- insert_heading (postgres_api.py lines 160-171). The INSERT carries the
pair (heading, parent_id if parent_id else 1); ON CONFLICT (heading,
parent_id) DO UPDATE SET parent_id = EXCLUDED.parent_id fires only when the
whole pair matches an existing row (rows with SQL NULL parent never conflict),
rewrites parent_id to the value it already has, and RETURNING hands back that
row's id; otherwise a fresh row is appended under the next serial id. The
final Python line applies truthiness once more to the returned id. -/
def insert_heading (st : Store) (heading : String) (parent_id : Option Nat) :
    Store × Nat :=
  let pid := pyIntOrOne parent_id
  match st.headings.find? (fun r => r.heading == heading && r.parent_id == some pid) with
  | some r =>
      ({ st with headings := st.headings.map (fun x =>
          if x.heading = heading ∧ x.parent_id = some pid
          then { x with parent_id := some pid } else x) },
        pyIntOrOne (some r.heading_id))
  | none =>
      ({ st with
          headings := st.headings ++ [⟨st.nextHeadingId, heading, some pid⟩]
          nextHeadingId := st.nextHeadingId + 1 },
        pyIntOrOne (some st.nextHeadingId))

/-- insert_headings (postgres_api.py lines 173-179): inserts a chain of
headings, each parented on the previously returned id, starting from None and
hence from the root. -/
def insert_headings (st : Store) (headings : List String) : Store × Option Nat :=
  headings.foldl (fun acc h =>
    let r := insert_heading acc.1 h acc.2
    (r.1, some r.2)) (st, none)

/-- Entity get-or-create step inside insert_sentence (postgres_api.py lines
190-196): ON CONFLICT (entity) DO UPDATE SET entity = EXCLUDED.entity rewrites
the identical text and RETURNING yields the existing id; otherwise a new
entity row is appended under the next serial id. -/
def insert_entity (st : Store) (entity : String) : Store × Nat :=
  match st.entities.find? (fun r => r.entity == entity) with
  | some r =>
      ({ st with entities := st.entities.map (fun x =>
          if x.entity = entity then { x with entity := entity } else x) },
        r.entity_id)
  | none =>
      ({ st with
          entities := st.entities ++ [⟨st.nextEntityId, entity⟩]
          nextEntityId := st.nextEntityId + 1 },
        st.nextEntityId)

/-- Entity and normalization loop of insert_sentence (postgres_api.py lines
189-200): each entity is get-or-created and one normalization edge from the
settled sentence id to it is appended, duplicates allowed. -/
def insertEntitiesLoop (sid : Nat) (st : Store) (entities : List String) : Store :=
  entities.foldl (fun acc e =>
    let r := insert_entity acc e
    { r.1 with normalizations := r.1.normalizations ++ [⟨sid, r.2⟩] }) st

/-- insert_sentence (postgres_api.py lines 181-204). The INSERT names the
heading_id column explicitly, so an unspecified heading arrives as SQL NULL
and the column DEFAULT is never consulted; ON CONFLICT (sentence, heading_id)
fires only when both parts match with a non-NULL heading, rewrites the
identical sentence text and returns the existing id. The dependencies column
receives the text produced by str_conv on the Python set. Afterwards each
entity is get-or-created and one normalization edge per entity is appended,
duplicates allowed. -/
def insert_sentence (st : Store) (sentence : String) (entities : List String)
    (dependencies : List String) (heading_id : Option Nat) : Store × Nat :=
  let deps := str_conv dependencies pySetEmptyTrimmed "\x7b" "\x7d"
  let step1 : Store × Nat :=
    match st.sentences.find? (fun r =>
        r.sentence == sentence && r.heading_id == heading_id && heading_id != none) with
    | some r =>
        ({ st with sentences := st.sentences.map (fun x =>
            if x.sentence = sentence ∧ x.heading_id = heading_id ∧ heading_id ≠ none
            then { x with sentence := sentence } else x) },
          r.sentence_id)
    | none =>
        ({ st with
            sentences := st.sentences ++ [⟨st.nextSentenceId, sentence, deps, heading_id⟩]
            nextSentenceId := st.nextSentenceId + 1 },
          st.nextSentenceId)
  (insertEntitiesLoop step1.2 step1.1 entities, step1.2)

/-- Reading of a Postgres integer-array literal of the shape produced by
str_conv: the outer characters are stripped and the comma-separated entries
are read as numbers; a literal with nothing between the braces denotes the
empty array. -/
def parsePgIntArray (s : String) : List Nat :=
  let inner := (s.drop 1).dropRight 1
  if inner = "" then []
  else (inner.splitOn ",").map (fun t => (t.trim.toNat?).getD 0)

/-- insert_frames (postgres_api.py lines 206-213): for each frame label the
INSERT carries (frame, str_conv([sentence_id])); the one-element Python list
is non-empty, so str_conv renders it as the empty-array literal. A new frame
row stores that array as its sentence_ids; ON CONFLICT (frame) DO UPDATE
concatenates it onto the existing sentence_ids. -/
def insert_frames (st : Store) (sentence_id : Nat) (frames : List String) : Store :=
  frames.foldl (fun acc f =>
    let arr := parsePgIntArray
      (str_conv [toString sentence_id] (toString sentence_id) "\x7b" "\x7d")
    if acc.frames.any (fun r => r.frame == f) then
      { acc with frames := acc.frames.map (fun r =>
          if r.frame = f then { r with sentence_ids := r.sentence_ids ++ arr } else r) }
    else
      { acc with frames := acc.frames ++ [⟨f, arr⟩] }) st

/-- Inner step of the weighted Levenshtein recurrence: given the distance
function f of the source tail, extend to the source with one more leading
character x. Inserting into the source costs 2, deleting from it costs 1,
substituting costs 2. -/
def levAux (f : List Char → Nat) (x : Char) : List Char → Nat
  | [] => 1 + f []
  | y :: bs =>
      min ((if x = y then 0 else 2) + f bs)
        (min (1 + f (y :: bs)) (2 + levAux f x bs))

/-- Weighted Levenshtein distance of semantic_kb.levenshtein(source, target,
2, 1, 2) as invoked at postgres_api.py line 256: cost of transforming the
first argument into the second with insert cost 2, delete cost 1, substitute
cost 2. -/
def lev : List Char → List Char → Nat
  | [], b => 2 * b.length
  | x :: as, b => levAux (lev as) x b

/-- Character count of a text, as Postgres length(). -/
def sqlLength (s : String) : Nat := s.data.length

/-- WHERE predicate of the fuzzy entity query (postgres_api.py lines 252-267):
entity length below MAX_ENTITY_LENGTH and at least the query length, and the
entity either starts with the query (LIKE 'q%'), ends with it (LIKE '%q'), or
lies within weighted edit distance ERROR_TOLERANCE of it. -/
def entityMatch (q : String) (e : Entity) : Bool :=
  decide (sqlLength e.entity < MAX_ENTITY_LENGTH) &&
  decide (sqlLength q ≤ sqlLength e.entity) &&
  (q.data.isPrefixOf e.entity.data ||
   q.data.isSuffixOf e.entity.data ||
   decide (lev e.entity.data q.data < ERROR_TOLERANCE))

/-- ORDER BY relation of the fuzzy entity query (postgres_api.py line 268):
entity_length ascending, then edit_distance ascending. The SQL names no
further sort key, so the relative order of rows tying on both components is
left unspecified by the query. -/
def fuzzyLE (q : String) (a b : Entity) : Prop :=
  sqlLength a.entity < sqlLength b.entity ∨
  (sqlLength a.entity = sqlLength b.entity ∧
    lev a.entity.data q.data ≤ lev b.entity.data q.data)

instance (q : String) : DecidableRel (fuzzyLE q) := fun a b =>
  inferInstanceAs (Decidable (sqlLength a.entity < sqlLength b.entity ∨
    (sqlLength a.entity = sqlLength b.entity ∧
      lev a.entity.data q.data ≤ lev b.entity.data q.data)))

instance (q : String) : IsTotal Entity (fuzzyLE q) :=
  ⟨by intro a b; unfold fuzzyLE; omega⟩

instance (q : String) : IsTrans Entity (fuzzyLE q) :=
  ⟨by intro a b c; unfold fuzzyLE; omega⟩

/-- Result lists the fuzzy entity query can return for one query string
(postgres_api.py lines 250-269): the WHERE-filtered rows arranged in some
order consistent with the ORDER BY relation — Postgres sorts are not stable
and leave the order of rows tying on both keys unspecified — then truncated
by LIMIT 3. -/
def fuzzyResult (ents : List Entity) (q : String) (out : List Entity) : Prop :=
  ∃ l : List Entity, List.Perm l (ents.filter (entityMatch q)) ∧
    l.Pairwise (fuzzyLE q) ∧ out = l.take 3

/-- One admissible evaluation of the fuzzy entity lookup, fixed so the
set-level query pipeline stays an executable function: filter the entity
table by the WHERE predicate, arrange by the ORDER BY relation resolving ties
in table order, keep LIMIT 3 rows. -/
def fuzzyMatchRows (ents : List Entity) (q : String) : List Entity :=
  ((ents.filter (entityMatch q)).insertionSort (fuzzyLE q)).take 3

/-- get_matching_entity_ids (postgres_api.py lines 248-272): run one fuzzy
lookup per input string and accumulate the returned entity ids into a set. -/
def get_matching_entity_ids (st : Store) (entities : List String) : Finset Nat :=
  entities.foldl (fun acc q =>
    acc ∪ ((fuzzyMatchRows st.entities q).map (fun e => e.entity_id)).toFinset) ∅

/-- get_entity_matching_sent_ids (postgres_api.py lines 275-281): an empty
entity id set short-circuits to the empty set without a lookup; otherwise the
distinct sentence ids of all normalization edges touching the given entity
ids. -/
def get_entity_matching_sent_ids (st : Store) (input_entity_ids : Finset Nat) :
    Finset Nat :=
  if input_entity_ids = ∅ then ∅
  else ((st.normalizations.filter (fun n => decide (n.entity_id ∈ input_entity_ids))).map
    (fun n => n.sentence_id)).toFinset

/-- filter_sent_ids_by_frames (postgres_api.py lines 284-297): empty inputs
short-circuit to the empty set; otherwise the candidate ids are intersected
with the sentence ids appearing in some frame whose label is among the
requested labels. -/
def filter_sent_ids_by_frames (st : Store) (sent_ids : Finset Nat)
    (input_frames : Finset String) : Finset Nat :=
  if sent_ids = ∅ ∨ input_frames = ∅ then ∅
  else sent_ids.filter (fun s =>
    ∃ fr ∈ st.frames, fr.frame ∈ input_frames ∧ s ∈ fr.sentence_ids)

/-- query_sentence_ids (postgres_api.py lines 245-316): fuzzy-match entity
ids, collect the sentences they normalize, filter those by frames, and return
the frame-filtered set when non-empty, else fall back to the entity-matched
set. -/
def query_sentence_ids (st : Store) (entities : List String)
    (frames : Finset String) : Finset Nat :=
  let entity_ids := get_matching_entity_ids st entities
  let entity_matching_sent_ids := get_entity_matching_sent_ids st entity_ids
  let frame_filtered_sent_ids :=
    filter_sent_ids_by_frames st entity_matching_sent_ids frames
  if frame_filtered_sent_ids.card > 0 then frame_filtered_sent_ids
  else entity_matching_sent_ids

/-- Output row of semantic_kb.get_hierarchy. -/
structure HierRow where
  heading_id : Nat
  heading : String
  index : Int
  deriving DecidableEq

/-- Children of a heading id: the rows whose parent_id points at it. -/
def childrenOf (hs : List Heading) (hid : Nat) : List Heading :=
  hs.filter (fun h => h.parent_id == some hid)

/-- Row lookup by heading id, the primary key of the headings table. -/
def findHeading (hs : List Heading) (hid : Nat) : Option Heading :=
  hs.find? (fun h => h.heading_id == hid)

/-- Levels of the traverse_down walk of get_hierarchy (postgres_api.py lines
90-106): the recursive term seeds the queried row at index 0 and each JOIN
step adds the children of the previous level one index higher, until a level
is empty. The fuel argument only bounds the iteration and is chosen beyond
every reachable depth. -/
def descendLevels (hs : List Heading) : List Heading → Nat → Int → List HierRow
  | _, 0, _ => []
  | lvl, fuel + 1, idx =>
      lvl.map (fun h => ⟨h.heading_id, h.heading, idx⟩) ++
        descendLevels hs (lvl.flatMap (fun h => childrenOf hs h.heading_id)) fuel (idx + 1)

/-- Upward walk of traverse_both (postgres_api.py lines 107-122): starting
from the queried row, each step emits the parent of the previous row one index
lower. The parents of descendant rows re-derive tuples already present in
traverse_down and are absorbed by UNION DISTINCT, so only the ancestor chain
of the queried heading survives in this arm. -/
def ancestorRows (hs : List Heading) : Heading → Nat → Int → List HierRow
  | _, 0, _ => []
  | h, fuel + 1, idx =>
      match h.parent_id with
      | none => []
      | some p =>
          match findHeading hs p with
          | none => []
          | some hp => ⟨hp.heading_id, hp.heading, idx⟩ :: ancestorRows hs hp fuel (idx - 1)

/-- Greatest heading id present, used to size the traversal fuel. -/
def maxHeadingId (hs : List Heading) : Nat :=
  hs.foldr (fun h m => max h.heading_id m) 0

/-- Order of the final SELECT of get_hierarchy (postgres_api.py line 128):
index ascending, heading_id ascending on ties. -/
def hierLE (a b : HierRow) : Prop :=
  a.index < b.index ∨ (a.index = b.index ∧ a.heading_id ≤ b.heading_id)

instance : DecidableRel hierLE := fun a b =>
  inferInstanceAs (Decidable
    (a.index < b.index ∨ (a.index = b.index ∧ a.heading_id ≤ b.heading_id)))

instance : IsTotal HierRow hierLE :=
  ⟨by intro a b; unfold hierLE; omega⟩

instance : IsTrans HierRow hierLE :=
  ⟨by intro a b c; unfold hierLE; omega⟩

/-- get_hierarchy (postgres_api.py lines 80-131): traverse_down collects the
queried heading and its descendants at non-negative indices by depth,
traverse_both adds each ancestor at the corresponding negative index, and the
final SELECT orders by index then heading id. Fuel one beyond the greatest id
covers every chain, because each parent id is smaller than its child id in a
well-formed store. -/
def get_hierarchy (st : Store) (id : Nat) : List HierRow :=
  match findHeading st.headings id with
  | none => []
  | some h =>
      (descendLevels st.headings [h] (maxHeadingId st.headings + 1) 0 ++
        ancestorRows st.headings h (maxHeadingId st.headings + 1) (-1)).insertionSort hierLE

/-- get_heading_hierarchy (postgres_api.py lines 215-219): plain wrapper over
the get_hierarchy table function. -/
def get_heading_hierarchy (st : Store) (heading_id : Nat) : List HierRow :=
  get_hierarchy st heading_id

/-- Parent chain of a heading up to the root: the heading itself followed by
each successive parent that resolves in the table. -/
def chainToRoot (hs : List Heading) : Nat → Heading → List Heading
  | 0, h => [h]
  | fuel + 1, h =>
      match h.parent_id with
      | none => [h]
      | some p =>
          match findHeading hs p with
          | none => [h]
          | some hp => h :: chainToRoot hs fuel hp

/-- Proper ancestors of a heading, nearest parent first, as resolved through
the table with the same fuel get_hierarchy uses. -/
def ancChain (st : Store) (h : Heading) : List Heading :=
  (chainToRoot st.headings (maxHeadingId st.headings + 1) h).tail

/-- Iterated parent resolution on heading ids: the id reached after k upward
steps, when every step resolves. -/
def ancIter (hs : List Heading) : Nat → Nat → Option Nat
  | 0, x => some x
  | k + 1, x =>
      match findHeading hs x with
      | none => none
      | some hx =>
          match hx.parent_id with
          | none => none
          | some p => ancIter hs k p

/-- Display path subquery of group_sentences_by_heading (postgres_api.py lines
325-326): string_agg with separator over the get_hierarchy rows at index at
most 0, in the order the function returns them; aggregating no rows yields SQL
NULL, as does a NULL heading id. -/
def displayPath (st : Store) : Option Nat → Option String
  | none => none
  | some hid =>
      let ts := ((get_hierarchy st hid).filter (fun r => decide (r.index ≤ 0))).map
        (fun r => r.heading)
      if ts.isEmpty then none else some (String.intercalate " > " ts)

/-- Output row of group_sentences_by_heading. -/
structure HeadingGroup where
  heading_id : Option Nat
  heading : Option String
  sentence_ids : List Nat
  first_sentence_id : Option Nat
  last_sentence_id : Option Nat
  deriving DecidableEq

/-- group_sentences_by_heading (postgres_api.py lines 318-334): an empty input
set short-circuits to the empty list; otherwise the matched sentence rows are
grouped by heading_id and each group carries the display path, the distinct
matched sentence ids in ascending order, and the least and greatest sentence
id filed under that heading in the whole table. -/
def group_sentences_by_heading (st : Store) (sentence_ids : Finset Nat) :
    List HeadingGroup :=
  if sentence_ids = ∅ then []
  else
    let matched := st.sentences.filter (fun r => decide (r.sentence_id ∈ sentence_ids))
    ((matched.map (fun r => r.heading_id)).dedup).map (fun h =>
      { heading_id := h
        heading := displayPath st h
        sentence_ids := (((matched.filter (fun r => r.heading_id == h)).map
          (fun r => r.sentence_id)).dedup).insertionSort (fun a b => a ≤ b)
        first_sentence_id := ((st.sentences.filter (fun r => r.heading_id == h)).map
          (fun r => r.sentence_id)).min?
        last_sentence_id := ((st.sentences.filter (fun r => r.heading_id == h)).map
          (fun r => r.sentence_id)).max? })

/-- Ranking relation stated by the specification for fuzzy matches: ascending
text length, then ascending edit distance, ties broken by entity id
ascending. -/
def fuzzyRank (q : String) (a b : Entity) : Prop :=
  sqlLength a.entity < sqlLength b.entity ∨
  (sqlLength a.entity = sqlLength b.entity ∧
    (lev a.entity.data q.data < lev b.entity.data q.data ∨
     (lev a.entity.data q.data = lev b.entity.data q.data ∧ a.entity_id < b.entity_id)))

instance (q : String) : DecidableRel (fuzzyRank q) := fun a b =>
  inferInstanceAs (Decidable (sqlLength a.entity < sqlLength b.entity ∨
    (sqlLength a.entity = sqlLength b.entity ∧
      (lev a.entity.data q.data < lev b.entity.data q.data ∨
       (lev a.entity.data q.data = lev b.entity.data q.data ∧
        a.entity_id < b.entity_id)))))

/-- Level reached after k downward steps of the traverse_down walk. -/
def nthLevel (hs : List Heading) : List Heading → Nat → List Heading
  | lvl, 0 => lvl
  | lvl, k + 1 => nthLevel hs (lvl.flatMap (fun h => childrenOf hs h.heading_id)) k

/-- Attach descending indices to a list of headings, starting at b. -/
def attachIdx : List Heading → Int → List HierRow
  | [], _ => []
  | a :: rest, b => ⟨a.heading_id, a.heading, b⟩ :: attachIdx rest (b - 1)

/-- Strict comparison of hierarchy rows by index alone. -/
def hierLT (a b : HierRow) : Prop := a.index < b.index

instance : DecidableRel hierLT := fun a b =>
  inferInstanceAs (Decidable (a.index < b.index))

instance : IsAntisymm HierRow hierLT :=
  ⟨by intro a b h1 h2; unfold hierLT at h1 h2; omega⟩

/-- Concrete store exercising the heading chain ROOT, Intro, Background with
a further Detail child and two filed sentences; used to witness the hierarchy
and grouping theorems. -/
def sampleStore : Store :=
  { entities := []
    headings := [⟨1, "ROOT", none⟩, ⟨2, "Intro", some 1⟩, ⟨3, "Background", some 2⟩,
      ⟨4, "Detail", some 3⟩]
    sentences := [⟨1, "Barack_PERSON was_VBD born_VBN", "\x7b\x7d", some 3⟩,
      ⟨2, "Other_T", "\x7b\x7d", some 1⟩]
    normalizations := []
    frames := []
    nextEntityId := 1
    nextHeadingId := 5
    nextSentenceId := 3 }

/-- Well-formedness of the headings table as maintained by insert_heading on
top of create_schema: ids are positive and distinct, and every stored parent
id is a smaller id that resolves to a stored row. -/
def headingsWF (hs : List Heading) : Prop :=
  (∀ h ∈ hs, 1 ≤ h.heading_id) ∧
  (hs.map (fun h => h.heading_id)).Nodup ∧
  ∀ h ∈ hs, ∀ p ∈ h.parent_id.toList, p < h.heading_id ∧ ∃ hp ∈ hs, hp.heading_id = p

/-- Referential health of the sentences table: every stored sentence points at
a stored heading. -/
def sentencesWF (st : Store) : Prop :=
  ∀ s ∈ st.sentences, ∃ hh ∈ st.headings, s.heading_id = some hh.heading_id

theorem map_pointwise_id {α : Type} (l : List α) (f : α → α) (h : ∀ x ∈ l, f x = x) :
    l.map f = l := by
  induction l with
  | nil => rfl
  | cons a t ih =>
      simp only [List.map_cons, h a (List.mem_cons_self a t), List.cons.injEq, true_and]
      exact ih (fun x hx => h x (List.mem_cons_of_mem a hx))

theorem insert_entity_sentences (st : Store) (e : String) :
    (insert_entity st e).1.sentences = st.sentences := by
  unfold insert_entity
  split <;> rfl

theorem insertEntitiesLoop_sentences (sid : Nat) (es : List String) :
    ∀ st : Store, (insertEntitiesLoop sid st es).sentences = st.sentences := by
  induction es with
  | nil => intro st; rfl
  | cons e t ih =>
      intro st
      have h1 : insertEntitiesLoop sid st (e :: t)
          = insertEntitiesLoop sid
              { (insert_entity st e).1 with normalizations :=
                  (insert_entity st e).1.normalizations ++ [⟨sid, (insert_entity st e).2⟩] } t := rfl
      rw [h1, ih]
      exact insert_entity_sentences st e

theorem sentenceRow_eta (x : SentenceRow) (s : String) (h : x.sentence = s) :
    ({ x with sentence := s } : SentenceRow) = x := by
  cases x
  simp_all

theorem heading_eta (x : Heading) (p : Option Nat) (h : x.parent_id = p) :
    ({ x with parent_id := p } : Heading) = x := by
  cases x
  simp_all

theorem pyIntOrOne_pos (n : Nat) (h : 1 ≤ n) : pyIntOrOne (some n) = n := by
  simp only [pyIntOrOne]
  split <;> omega

/-- Unfolding of insert_sentence into its conflict branch. -/
theorem insert_sentence_conflict (st : Store) (s : String) (es ds : List String)
    (hid : Option Nat) (row : SentenceRow)
    (hfind : st.sentences.find? (fun r =>
        r.sentence == s && r.heading_id == hid && hid != none) = some row) :
    insert_sentence st s es ds hid
      = (insertEntitiesLoop row.sentence_id
          { st with sentences := st.sentences.map (fun x =>
              if x.sentence = s ∧ x.heading_id = hid ∧ hid ≠ none
              then { x with sentence := s } else x) } es,
         row.sentence_id) := by
  unfold insert_sentence
  rw [hfind]

/-- Unfolding of insert_sentence into its fresh-insert branch. -/
theorem insert_sentence_fresh (st : Store) (s : String) (es ds : List String)
    (hid : Option Nat)
    (hfind : st.sentences.find? (fun r =>
        r.sentence == s && r.heading_id == hid && hid != none) = none) :
    insert_sentence st s es ds hid
      = (insertEntitiesLoop st.nextSentenceId
          { st with
              sentences := st.sentences ++
                [⟨st.nextSentenceId, s, str_conv ds pySetEmptyTrimmed "\x7b" "\x7d", hid⟩]
              nextSentenceId := st.nextSentenceId + 1 } es,
         st.nextSentenceId) := by
  unfold insert_sentence
  rw [hfind]

/-- C10: every call to insert_sentence with a non-empty dependencies set
stores the empty-array literal as the sentence's dependencies value: str_conv
maps every non-empty collection to that literal because its emptiness test is
inverted, so the supplied dependency strings are never persisted. -/
theorem C10_nonempty_dependencies_stored_empty (st : Store) (sentence : String)
    (entities : List String) (dependencies : List String) (heading_id : Option Nat)
    (hdep : dependencies ≠ []) :
    str_conv dependencies pySetEmptyTrimmed "\x7b" "\x7d" = "\x7b\x7d" ∧
    ∀ r ∈ (insert_sentence st sentence entities dependencies heading_id).1.sentences,
      r ∉ st.sentences → r.dependencies = "\x7b\x7d" := by
  have hlen : dependencies.length > 0 := List.length_pos.mpr hdep
  have hconv : str_conv dependencies pySetEmptyTrimmed "\x7b" "\x7d" = "\x7b\x7d" := by
    unfold str_conv
    rw [if_pos hlen]
    rfl
  refine ⟨hconv, ?_⟩
  intro r hr hnotin
  rcases hfind : st.sentences.find? (fun x =>
      x.sentence == sentence && x.heading_id == heading_id && heading_id != none) with _ | row
  · rw [insert_sentence_fresh st sentence entities dependencies heading_id hfind] at hr
    simp only [insertEntitiesLoop_sentences] at hr
    rcases List.mem_append.mp hr with hin | hnew
    · exact absurd hin hnotin
    · rcases List.mem_singleton.mp hnew with rfl
      exact hconv
  · rw [insert_sentence_conflict st sentence entities dependencies heading_id row hfind] at hr
    simp only [insertEntitiesLoop_sentences] at hr
    rcases List.mem_map.mp hr with ⟨x, hx, hfx⟩
    by_cases hc : x.sentence = sentence ∧ x.heading_id = heading_id ∧ heading_id ≠ none
    · rw [if_pos hc, sentenceRow_eta x sentence hc.1] at hfx
      exact absurd (hfx ▸ hx) hnotin
    · rw [if_neg hc] at hfx
      exact absurd (hfx ▸ hx) hnotin

/-- C1: the code contradicts the frame-tagging contract. Tagging sentence 7
with frame "Cause" twice leaves the frame's sentence-id collection empty,
because str_conv renders the non-empty one-element list as the empty-array
literal; sentence 7 never becomes a member of the collection. -/
theorem C1_insert_frames_never_appends :
    (insert_frames (insert_frames create_schema 7 ["Cause"]) 7 ["Cause"]).frames
      = [⟨"Cause", []⟩] ∧
    ∀ fr ∈ (insert_frames (insert_frames create_schema 7 ["Cause"]) 7 ["Cause"]).frames,
      7 ∉ fr.sentence_ids := by
  decide

/-- C5: the code contradicts the default-heading contract and the schema's own
DEFAULT 1 declaration. A sentence inserted without an explicit heading id is
stored with SQL NULL as its heading_id, not with the id of the ROOT sentinel
heading, because insert_sentence names the column and passes None. -/
theorem C5_default_heading_stored_null :
    ((insert_sentence create_schema "w_T" [] [] none).1.sentences.map
      (fun s => s.heading_id)) = [none] ∧
    create_schema.headings.map (fun h => (h.heading_id, h.heading)) = [(1, ROOT_NODE_NAME)] := by
  decide

/-- C8: empty query inputs are not errors and short-circuit: the full query
with no entities and no frames returns the empty set, the entity-to-sentence
lookup returns the empty set on an empty entity-id set, the frame filter
returns the empty set when either input is empty, and grouping an empty
sentence-id set returns the empty list. -/
theorem C8_empty_short_circuit :
    (∀ st : Store, query_sentence_ids st [] ∅ = ∅) ∧
    (∀ st : Store, get_entity_matching_sent_ids st ∅ = ∅) ∧
    (∀ (st : Store) (fs : Finset String), filter_sent_ids_by_frames st ∅ fs = ∅) ∧
    (∀ (st : Store) (ss : Finset Nat), filter_sent_ids_by_frames st ss ∅ = ∅) ∧
    (∀ st : Store, group_sentences_by_heading st ∅ = []) := by
  refine ⟨?_, ?_, ?_, ?_, ?_⟩
  · intro st
    unfold query_sentence_ids get_matching_entity_ids get_entity_matching_sent_ids
      filter_sent_ids_by_frames
    simp
  · intro st
    unfold get_entity_matching_sent_ids
    simp
  · intro st fs
    unfold filter_sent_ids_by_frames
    simp
  · intro st ss
    unfold filter_sent_ids_by_frames
    simp
  · intro st
    unfold group_sentences_by_heading
    simp

/-- C2: the query computes the entity-matched sentence set, then the
frame-filtered subset of it; the filtered set is always a subset of the
entity-matched set, and the query returns the filtered set exactly when it is
non-empty and the unfiltered entity-matched set otherwise. -/
theorem C2_frame_fallback (st : Store) (entities : List String) (frames : Finset String) :
    filter_sent_ids_by_frames st
        (get_entity_matching_sent_ids st (get_matching_entity_ids st entities)) frames
      ⊆ get_entity_matching_sent_ids st (get_matching_entity_ids st entities) ∧
    query_sentence_ids st entities frames =
      (if filter_sent_ids_by_frames st
            (get_entity_matching_sent_ids st (get_matching_entity_ids st entities)) frames = ∅
       then get_entity_matching_sent_ids st (get_matching_entity_ids st entities)
       else filter_sent_ids_by_frames st
            (get_entity_matching_sent_ids st (get_matching_entity_ids st entities)) frames) := by
  constructor
  · unfold filter_sent_ids_by_frames
    split
    · exact Finset.empty_subset _
    · exact Finset.filter_subset _ _
  · unfold query_sentence_ids
    by_cases hff : filter_sent_ids_by_frames st
        (get_entity_matching_sent_ids st (get_matching_entity_ids st entities)) frames = ∅
    · simp [hff]
    · have hpos : 0 < (filter_sent_ids_by_frames st
          (get_entity_matching_sent_ids st (get_matching_entity_ids st entities)) frames).card :=
        Finset.card_pos.mpr (Finset.nonempty_iff_ne_empty.mpr hff)
      simp [hff, hpos]

/-- Unfolding of insert_heading into its conflict branch. -/
theorem insert_heading_conflict (st : Store) (t : String) (p : Option Nat) (row : Heading)
    (hfind : st.headings.find? (fun r =>
        r.heading == t && r.parent_id == some (pyIntOrOne p)) = some row) :
    insert_heading st t p
      = ({ st with headings := st.headings.map (fun x =>
            if x.heading = t ∧ x.parent_id = some (pyIntOrOne p)
            then { x with parent_id := some (pyIntOrOne p) } else x) },
         pyIntOrOne (some row.heading_id)) := by
  unfold insert_heading
  simp only [hfind]

/-- Unfolding of insert_heading into its fresh-insert branch. -/
theorem insert_heading_fresh (st : Store) (t : String) (p : Option Nat)
    (hfind : st.headings.find? (fun r =>
        r.heading == t && r.parent_id == some (pyIntOrOne p)) = none) :
    insert_heading st t p
      = ({ st with
            headings := st.headings ++ [⟨st.nextHeadingId, t, some (pyIntOrOne p)⟩]
            nextHeadingId := st.nextHeadingId + 1 },
         pyIntOrOne (some st.nextHeadingId)) := by
  unfold insert_heading
  simp only [hfind]

/-- C4 counterexample: with heading "A" stored under the root (id 2) and a
heading "B" (id 3), inserting "A" under parent 3 does not move heading 2 and
does not return its id; it creates a second heading row with text "A" under
its own fresh id 4, and heading 2 keeps parent 1. The claim's re-parenting
behaviour is refuted at this input. -/
theorem C4_counterexample_second_row :
    (insert_heading (insert_heading (insert_heading create_schema "A" none).1 "B" none).1
        "A" (some 3)).2 = 4 ∧
    ((insert_heading (insert_heading (insert_heading create_schema "A" none).1 "B" none).1
        "A" (some 3)).1.headings.filter (fun h => h.heading == "A")).length = 2 ∧
    (insert_heading (insert_heading (insert_heading create_schema "A" none).1 "B" none).1
        "A" (some 3)).1.headings.find? (fun h => h.heading_id == 2)
      = some ⟨2, "A", some 1⟩ := by
  decide

/-- C4 amended: heading uniqueness is keyed on the whole (text, parent) pair.
Re-inserting an already stored (text, parent) pair returns the existing row's
id and leaves the store unchanged, while inserting the same text under a
parent for which the pair is not stored appends a second heading row with
that text under a fresh id, leaving every existing row, in particular the
original heading's parent, untouched. -/
theorem C4_pair_keyed_get_or_create (st : Store) (t : String) (p : Option Nat)
    (row : Heading) (p2 : Nat)
    (hfind : st.headings.find? (fun r =>
        r.heading == t && r.parent_id == some (pyIntOrOne p)) = some row)
    (hpos : 1 ≤ row.heading_id)
    (hno : st.headings.find? (fun r =>
        r.heading == t && r.parent_id == some (pyIntOrOne (some p2))) = none) :
    insert_heading st t p = (st, row.heading_id) ∧
    (insert_heading st t (some p2)).1.headings
      = st.headings ++ [⟨st.nextHeadingId, t, some (pyIntOrOne (some p2))⟩] ∧
    (insert_heading st t (some p2)).2 = pyIntOrOne (some st.nextHeadingId) := by
  refine ⟨?_, ?_, ?_⟩
  · rw [insert_heading_conflict st t p row hfind]
    have hmap : st.headings.map (fun x =>
        if x.heading = t ∧ x.parent_id = some (pyIntOrOne p)
        then { x with parent_id := some (pyIntOrOne p) } else x) = st.headings := by
      apply map_pointwise_id
      intro x _
      by_cases hc : x.heading = t ∧ x.parent_id = some (pyIntOrOne p)
      · rw [if_pos hc]
        exact heading_eta x (some (pyIntOrOne p)) hc.2
      · rw [if_neg hc]
    rw [hmap, pyIntOrOne_pos row.heading_id hpos]
  · rw [insert_heading_fresh st t (some p2) hno]
  · rw [insert_heading_fresh st t (some p2) hno]

/-- C4 amended witness at the counterexample store: heading "A" is stored as
row 2 under parent 1; re-inserting ("A", parent 1) returns 2 and changes
nothing, while inserting "A" under parent 3 appends row 4. -/
theorem C4_pair_keyed_get_or_create_witness :
    insert_heading (insert_heading (insert_heading create_schema "A" none).1 "B" none).1
        "A" (some 1)
      = ((insert_heading (insert_heading create_schema "A" none).1 "B" none).1, 2) ∧
    (insert_heading (insert_heading (insert_heading create_schema "A" none).1 "B" none).1
        "A" (some 3)).1.headings
      = (insert_heading (insert_heading create_schema "A" none).1 "B" none).1.headings ++
          [⟨4, "A", some 3⟩] ∧
    (insert_heading (insert_heading (insert_heading create_schema "A" none).1 "B" none).1
        "A" (some 3)).2 = pyIntOrOne (some 4) := by
  exact C4_pair_keyed_get_or_create
    (insert_heading (insert_heading create_schema "A" none).1 "B" none).1
    "A" (some 1) ⟨2, "A", some 1⟩ 3 (by decide) (by decide) (by decide)

/-- C6: insertion is idempotent. Re-inserting the same (text, parent) heading
returns the same id both times and leaves the store identical, and
re-inserting the same (tagged_text, heading_id) sentence under an actual
heading id returns the same sentence id and leaves the sentences table
identical, creating no second record. -/
theorem C6_insert_idempotent :
    (∀ (st : Store) (t : String) (p : Option Nat),
      (insert_heading (insert_heading st t p).1 t p).2 = (insert_heading st t p).2 ∧
      (insert_heading (insert_heading st t p).1 t p).1 = (insert_heading st t p).1) ∧
    (∀ (st : Store) (s : String) (es ds : List String) (h : Nat),
      (insert_sentence (insert_sentence st s es ds (some h)).1 s es ds (some h)).2
        = (insert_sentence st s es ds (some h)).2 ∧
      (insert_sentence (insert_sentence st s es ds (some h)).1 s es ds (some h)).1.sentences
        = (insert_sentence st s es ds (some h)).1.sentences) := by
  constructor
  · intro st t p
    have hmapid : ∀ l : List Heading, l.map (fun x =>
        if x.heading = t ∧ x.parent_id = some (pyIntOrOne p)
        then { x with parent_id := some (pyIntOrOne p) } else x) = l := by
      intro l
      apply map_pointwise_id
      intro x _
      by_cases hc : x.heading = t ∧ x.parent_id = some (pyIntOrOne p)
      · rw [if_pos hc]
        exact heading_eta x (some (pyIntOrOne p)) hc.2
      · rw [if_neg hc]
    rcases hfind : st.headings.find? (fun r =>
        r.heading == t && r.parent_id == some (pyIntOrOne p)) with _ | row
    · have h1 := insert_heading_fresh st t p hfind
      have hfind2 : (insert_heading st t p).1.headings.find? (fun r =>
          r.heading == t && r.parent_id == some (pyIntOrOne p))
            = some ⟨st.nextHeadingId, t, some (pyIntOrOne p)⟩ := by
        rw [h1]
        simp only [List.find?_append, hfind]
        simp
      have h2 := insert_heading_conflict (insert_heading st t p).1 t p _ hfind2
      refine ⟨?_, ?_⟩
      · rw [h2, h1]
      · rw [h2]
        dsimp only
        rw [hmapid]
    · have h1 : insert_heading st t p = (st, pyIntOrOne (some row.heading_id)) := by
        rw [insert_heading_conflict st t p row hfind, hmapid]
      have h2 := insert_heading_conflict st t p row hfind
      refine ⟨?_, ?_⟩
      · rw [h1, h2]
      · rw [h1, h2]
        dsimp only
        rw [hmapid]
  · intro st s es ds h
    have hmapid : ∀ l : List SentenceRow, l.map (fun x =>
        if x.sentence = s ∧ x.heading_id = some h ∧ (some h : Option Nat) ≠ none
        then { x with sentence := s } else x) = l := by
      intro l
      apply map_pointwise_id
      intro x _
      by_cases hc : x.sentence = s ∧ x.heading_id = some h ∧ (some h : Option Nat) ≠ none
      · rw [if_pos hc]
        exact sentenceRow_eta x s hc.1
      · rw [if_neg hc]
    rcases hfind : st.sentences.find? (fun r =>
        r.sentence == s && r.heading_id == some h && (some h : Option Nat) != none) with _ | row
    · have h1 := insert_sentence_fresh st s es ds (some h) hfind
      have hsent1 : (insert_sentence st s es ds (some h)).1.sentences
          = st.sentences ++ [⟨st.nextSentenceId, s,
              str_conv ds pySetEmptyTrimmed "\x7b" "\x7d", some h⟩] := by
        rw [h1]
        simp only [insertEntitiesLoop_sentences]
      have hfind2 : (insert_sentence st s es ds (some h)).1.sentences.find? (fun r =>
          r.sentence == s && r.heading_id == some h && (some h : Option Nat) != none)
            = some ⟨st.nextSentenceId, s,
                str_conv ds pySetEmptyTrimmed "\x7b" "\x7d", some h⟩ := by
        rw [hsent1]
        simp only [List.find?_append, hfind]
        simp
      have h2 := insert_sentence_conflict (insert_sentence st s es ds (some h)).1
        s es ds (some h) _ hfind2
      refine ⟨?_, ?_⟩
      · rw [h2, h1]
      · rw [h2]
        simp only [insertEntitiesLoop_sentences]
        exact hmapid _
    · have h1 := insert_sentence_conflict st s es ds (some h) row hfind
      have hsent1 : (insert_sentence st s es ds (some h)).1.sentences = st.sentences := by
        rw [h1]
        simp only [insertEntitiesLoop_sentences]
        exact hmapid _
      have hfind2 : (insert_sentence st s es ds (some h)).1.sentences.find? (fun r =>
          r.sentence == s && r.heading_id == some h && (some h : Option Nat) != none)
            = some row := by
        rw [hsent1, hfind]
      have h2 := insert_sentence_conflict (insert_sentence st s es ds (some h)).1
        s es ds (some h) row hfind2
      refine ⟨?_, ?_⟩
      · rw [h2, h1]
      · rw [h2]
        simp only [insertEntitiesLoop_sentences]
        exact hmapid _

/-- C10 witness at a concrete insertion with a non-empty dependency set. -/
theorem C10_nonempty_dependencies_stored_empty_witness :
    str_conv ["nsubj"] pySetEmptyTrimmed "\x7b" "\x7d" = "\x7b\x7d" ∧
    ∀ r ∈ (insert_sentence create_schema "w_T" [] ["nsubj"] (some 1)).1.sentences,
      r ∉ create_schema.sentences → r.dependencies = "\x7b\x7d" :=
  C10_nonempty_dependencies_stored_empty create_schema "w_T" [] ["nsubj"] (some 1)
    (by decide)

/-- C3 amended: for every entity table, every query string and every result
list the fuzzy entity query can return, the list holds at most 3 rows, every
returned row satisfies the length and prefix/suffix/edit-distance predicate
of the WHERE clause, and the rows are ordered by ascending text length, then
ascending edit distance. The SQL names no further sort key, so no ordering
among rows tying on both keys is promised — in particular no entity-id
tie-break, and at a tie boundary the LIMIT 3 cutoff itself is unspecified. -/
theorem C3_fuzzy_match_bound (ents : List Entity) (q : String) (out : List Entity)
    (hout : fuzzyResult ents q out) :
    out.length ≤ 3 ∧
    (∀ e ∈ out, entityMatch q e = true) ∧
    out.Pairwise (fuzzyLE q) := by
  rcases hout with ⟨l, hperm, hsort, rfl⟩
  refine ⟨?_, ?_, ?_⟩
  · simp [List.length_take]
  · intro e he
    have h1 : e ∈ l := List.take_subset 3 l he
    have h2 : e ∈ ents.filter (entityMatch q) := hperm.mem_iff.mp h1
    exact List.of_mem_filter h2
  · exact hsort.sublist (List.take_sublist 3 l)

/-- C3 counterexample: the entities "ax" (id 1) and "ay" (id 2) both match
the query "ab" with text length 2 and weighted edit distance 2, so they tie
on both ORDER BY keys; the list placing id 2 before id 1 is a result the
query is allowed to return, and it is not ordered with ties broken by entity
id ascending, refuting the claim's tie-break clause. -/
theorem C3_id_tiebreak_counterexample :
    fuzzyResult [⟨1, "ax"⟩, ⟨2, "ay"⟩] "ab" [⟨2, "ay"⟩, ⟨1, "ax"⟩] ∧
    ¬ ([⟨2, "ay"⟩, ⟨1, "ax"⟩] : List Entity).Pairwise (fuzzyRank "ab") := by
  constructor
  · exact ⟨[⟨2, "ay"⟩, ⟨1, "ax"⟩], by decide, by decide, by decide⟩
  · decide

/-- C3 witness at a concrete entity table, query string and admissible
result list. -/
theorem C3_fuzzy_match_bound_witness :
    ([⟨1, "apple"⟩, ⟨2, "apply"⟩] : List Entity).length ≤ 3 ∧
    (∀ e ∈ ([⟨1, "apple"⟩, ⟨2, "apply"⟩] : List Entity), entityMatch "app" e = true) ∧
    ([⟨1, "apple"⟩, ⟨2, "apply"⟩] : List Entity).Pairwise (fuzzyLE "app") :=
  C3_fuzzy_match_bound [⟨1, "apple"⟩, ⟨2, "apply"⟩, ⟨3, "ap"⟩, ⟨4, "banana"⟩] "app"
    [⟨1, "apple"⟩, ⟨2, "apply"⟩]
    ⟨[⟨1, "apple"⟩, ⟨2, "apply"⟩], by decide, by decide, by decide⟩

theorem findHeading_mem (hs : List Heading)
    (hnodup : (hs.map (fun h => h.heading_id)).Nodup) (h : Heading) (hmem : h ∈ hs) :
    findHeading hs h.heading_id = some h := by
  induction hs with
  | nil => cases hmem
  | cons a t ih =>
      rcases List.nodup_cons.mp hnodup with ⟨hna, hnt⟩
      unfold findHeading
      rcases List.mem_cons.mp hmem with rfl | hmt
      · rw [List.find?_cons_of_pos]
        simp
      · by_cases hda : a.heading_id = h.heading_id
        · refine absurd ?_ hna
          show a.heading_id ∈ List.map (fun x => x.heading_id) t
          rw [hda]
          exact List.mem_map_of_mem (fun x => x.heading_id) hmt
        · rw [List.find?_cons_of_neg]
          · exact ih hnt hmt
          · simp
            exact fun he => hda he

theorem findHeading_eq_some (hs : List Heading) (i : Nat) (h : Heading)
    (hf : findHeading hs i = some h) : h ∈ hs ∧ h.heading_id = i := by
  unfold findHeading at hf
  refine ⟨List.mem_of_find?_eq_some hf, ?_⟩
  have := List.find?_some hf
  simpa using this

theorem le_maxHeadingId (hs : List Heading) (h : Heading) (hmem : h ∈ hs) :
    h.heading_id ≤ maxHeadingId hs := by
  induction hs with
  | nil => cases hmem
  | cons a t ih =>
      unfold maxHeadingId
      rcases List.mem_cons.mp hmem with rfl | hmt
      · exact Nat.le_max_left _ _
      · exact Nat.le_trans (ih hmt) (Nat.le_max_right _ _)

theorem chainToRoot_eq_cons (hs : List Heading) (f : Nat) (h : Heading) :
    chainToRoot hs f h = h :: (chainToRoot hs f h).tail := by
  cases f with
  | zero => rfl
  | succ f =>
      unfold chainToRoot
      split
      · rfl
      · split <;> rfl

theorem ancestorRows_eq_attach (hs : List Heading) (f : Nat) :
    ∀ (h : Heading) (b : Int),
      ancestorRows hs h f b = attachIdx (chainToRoot hs f h).tail b := by
  induction f with
  | zero => intro h b; rfl
  | succ f ih =>
      intro h b
      unfold ancestorRows chainToRoot
      split
      · rfl
      · split
        · rfl
        · rename_i p hp hpp hf
          show (⟨hpp.heading_id, hpp.heading, b⟩ : HierRow) :: ancestorRows hs hpp f (b - 1)
            = attachIdx (h :: chainToRoot hs f hpp).tail b
          rw [ih hpp (b - 1), chainToRoot_eq_cons hs f hpp]
          rfl

theorem attachIdx_mem (xs : List Heading) :
    ∀ (b : Int) (r : HierRow), r ∈ attachIdx xs b →
      ∃ i, ∃ hi : i < xs.length,
        r = ⟨(xs.get ⟨i, hi⟩).heading_id, (xs.get ⟨i, hi⟩).heading, b - i⟩ := by
  induction xs with
  | nil => intro b r hr; cases hr
  | cons a t ih =>
      intro b r hr
      rcases List.mem_cons.mp hr with rfl | hrt
      · exact ⟨0, Nat.succ_pos _, by simp⟩
      · rcases ih (b - 1) r hrt with ⟨i, hi, heq⟩
        refine ⟨i + 1, Nat.succ_lt_succ hi, ?_⟩
        rw [heq]
        simp only [List.get_cons_succ]
        congr 1
        omega

theorem attachIdx_mem_of_get (xs : List Heading) :
    ∀ (b : Int) (i : Nat) (hi : i < xs.length),
      (⟨(xs.get ⟨i, hi⟩).heading_id, (xs.get ⟨i, hi⟩).heading, b - i⟩ : HierRow)
        ∈ attachIdx xs b := by
  induction xs with
  | nil => intro b i hi; cases hi
  | cons a t ih =>
      intro b i hi
      cases i with
      | zero => simp [attachIdx]
      | succ i =>
          have := ih (b - 1) i (Nat.lt_of_succ_lt_succ hi)
          refine List.mem_cons_of_mem _ ?_
          simp only [List.get_cons_succ]
          have harith : b - 1 - (i : Int) = b - ((i : Int) + 1) := by omega
          simp only [Nat.cast_succ]
          rw [show b - ((i : Int) + 1) = b - 1 - i by omega]
          exact this

theorem attachIdx_index_le (xs : List Heading) :
    ∀ (b : Int) (r : HierRow), r ∈ attachIdx xs b → r.index ≤ b := by
  induction xs with
  | nil => intro b r hr; cases hr
  | cons a t ih =>
      intro b r hr
      rcases List.mem_cons.mp hr with rfl | hrt
      · exact le_refl b
      · have := ih (b - 1) r hrt
        omega

theorem attachIdx_pairwise (xs : List Heading) :
    ∀ b : Int, (attachIdx xs b).Pairwise (fun r1 r2 => r2.index < r1.index) := by
  induction xs with
  | nil => intro b; exact List.Pairwise.nil
  | cons a t ih =>
      intro b
      refine List.pairwise_cons.mpr ⟨?_, ih (b - 1)⟩
      intro r hr
      have := attachIdx_index_le t (b - 1) r hr
      show r.index < b
      omega

theorem attachIdx_map_heading (xs : List Heading) :
    ∀ b : Int, (attachIdx xs b).map (fun r => r.heading) = xs.map (fun x => x.heading) := by
  induction xs with
  | nil => intro b; rfl
  | cons a t ih =>
      intro b
      show a.heading :: (attachIdx t (b - 1)).map (fun r => r.heading) = _
      rw [ih (b - 1)]
      rfl

theorem descendLevels_succ (hs : List Heading) (lvl : List Heading) (f : Nat) (idx : Int) :
    descendLevels hs lvl (f + 1) idx
      = lvl.map (fun h => ⟨h.heading_id, h.heading, idx⟩) ++
        descendLevels hs (lvl.flatMap (fun h => childrenOf hs h.heading_id)) f (idx + 1) := rfl

theorem ancIter_succ (hs : List Heading) (k x : Nat) :
    ancIter hs (k + 1) x
      = match findHeading hs x with
        | none => none
        | some hx =>
            match hx.parent_id with
            | none => none
            | some p => ancIter hs k p := rfl

theorem nthLevel_succ_right (hs : List Heading) :
    ∀ (k : Nat) (lvl : List Heading),
      nthLevel hs lvl (k + 1)
        = (nthLevel hs lvl k).flatMap (fun h => childrenOf hs h.heading_id) := by
  intro k
  induction k with
  | zero => intro lvl; rfl
  | succ k ih =>
      intro lvl
      show nthLevel hs (lvl.flatMap (fun h => childrenOf hs h.heading_id)) (k + 1) = _
      rw [ih]
      rfl

theorem ancIter_succ_right (hs : List Heading) :
    ∀ (k x : Nat),
      ancIter hs (k + 1) x = (ancIter hs k x).bind (fun z => ancIter hs 1 z) := by
  intro k
  induction k with
  | zero => intro x; rfl
  | succ k ih =>
      intro x
      rw [ancIter_succ hs (k + 1) x, ancIter_succ hs k x]
      rcases hf : findHeading hs x with _ | hx
      · rfl
      · dsimp only
        rcases hp : hx.parent_id with _ | p
        · rfl
        · exact ih p

theorem descendLevels_index_ge (hs : List Heading) :
    ∀ (f : Nat) (lvl : List Heading) (idx : Int) (r : HierRow),
      r ∈ descendLevels hs lvl f idx → idx ≤ r.index := by
  intro f
  induction f with
  | zero => intro lvl idx r hr; cases hr
  | succ f ih =>
      intro lvl idx r hr
      rw [descendLevels_succ] at hr
      rcases List.mem_append.mp hr with hmap | hrec
      · rcases List.mem_map.mp hmap with ⟨x, _, rfl⟩
        exact le_refl idx
      · have := ih _ (idx + 1) r hrec
        omega

theorem descendLevels_mem (hs : List Heading) :
    ∀ (f : Nat) (lvl : List Heading) (idx : Int) (r : HierRow),
      r ∈ descendLevels hs lvl f idx →
        ∃ k, k < f ∧ ∃ x ∈ nthLevel hs lvl k,
          r = ⟨x.heading_id, x.heading, idx + k⟩ := by
  intro f
  induction f with
  | zero => intro lvl idx r hr; cases hr
  | succ f ih =>
      intro lvl idx r hr
      rw [descendLevels_succ] at hr
      rcases List.mem_append.mp hr with hmap | hrec
      · rcases List.mem_map.mp hmap with ⟨x, hx, rfl⟩
        refine ⟨0, Nat.succ_pos f, x, hx, ?_⟩
        simp
      · rcases ih _ (idx + 1) r hrec with ⟨k, hk, x, hx, heq⟩
        refine ⟨k + 1, Nat.succ_lt_succ hk, x, hx, ?_⟩
        rw [heq]
        congr 1
        push_cast
        omega

theorem descendLevels_mem_of_level (hs : List Heading) :
    ∀ (k f : Nat) (lvl : List Heading) (idx : Int) (x : Heading),
      k < f → x ∈ nthLevel hs lvl k →
        (⟨x.heading_id, x.heading, idx + k⟩ : HierRow) ∈ descendLevels hs lvl f idx := by
  intro k
  induction k with
  | zero =>
      intro f lvl idx x hf hx
      obtain ⟨g, rfl⟩ : ∃ g, f = g + 1 := ⟨f - 1, by omega⟩
      rw [descendLevels_succ]
      refine List.mem_append.mpr (Or.inl ?_)
      refine List.mem_map.mpr ⟨x, hx, ?_⟩
      congr 1
      simp
  | succ k ih =>
      intro f lvl idx x hf hx
      obtain ⟨g, rfl⟩ : ∃ g, f = g + 1 := ⟨f - 1, by omega⟩
      rw [descendLevels_succ]
      refine List.mem_append.mpr (Or.inr ?_)
      have hx2 : x ∈ nthLevel hs (lvl.flatMap (fun h => childrenOf hs h.heading_id)) k := hx
      have hmem := ih g (lvl.flatMap (fun h => childrenOf hs h.heading_id)) (idx + 1) x
        (by omega) hx2
      have harith : idx + ((k : Int) + 1) = (idx + 1) + (k : Int) := by omega
      push_cast
      rw [harith]
      exact hmem

theorem nthLevel_ancIter (hs : List Heading) (hwf : headingsWF hs) :
    ∀ (k : Nat) (lvl : List Heading) (x : Heading), x ∈ nthLevel hs lvl k →
      ∃ y ∈ lvl, ancIter hs k x.heading_id = some y.heading_id := by
  intro k
  induction k with
  | zero => intro lvl x hx; exact ⟨x, hx, rfl⟩
  | succ k ih =>
      intro lvl x hx
      have hx2 : x ∈ nthLevel hs (lvl.flatMap (fun h => childrenOf hs h.heading_id)) k := hx
      rcases ih _ x hx2 with ⟨y, hy, hanc⟩
      rcases List.mem_flatMap.mp hy with ⟨p, hp, hchild⟩
      have hyhs : y ∈ hs := List.mem_of_mem_filter hchild
      have hypar : y.parent_id = some p.heading_id := by
        have := List.of_mem_filter hchild
        simpa using this
      refine ⟨p, hp, ?_⟩
      rw [ancIter_succ_right hs k x.heading_id, hanc]
      show ancIter hs 1 y.heading_id = some p.heading_id
      rw [ancIter_succ hs 0 y.heading_id, findHeading_mem hs hwf.2.1 y hyhs]
      dsimp only
      rw [hypar]
      rfl

theorem ancIter_nthLevel (hs : List Heading) (hwf : headingsWF hs) (h : Heading)
    (hmem : h ∈ hs) :
    ∀ (k x : Nat) (hx : Heading), findHeading hs x = some hx →
      ancIter hs k x = some h.heading_id → hx ∈ nthLevel hs [h] k := by
  intro k
  induction k with
  | zero =>
      intro x hx hf hanc
      have hxh : x = h.heading_id := by
        have : (some x : Option Nat) = some h.heading_id := hanc
        simpa using this
      subst hxh
      rw [findHeading_mem hs hwf.2.1 h hmem] at hf
      have : h = hx := by simpa using hf
      subst this
      simp [nthLevel]
  | succ k ih =>
      intro x hx hf hanc
      rw [ancIter_succ hs k x, hf] at hanc
      dsimp only at hanc
      rcases hp : hx.parent_id with _ | p
      · rw [hp] at hanc; cases hanc
      · rw [hp] at hanc
        have hxmem := (findHeading_eq_some hs x hx hf).1
        have hpar := hwf.2.2 hx hxmem p (by rw [hp]; simp)
        rcases hpar.2 with ⟨hpr, hprmem, hprid⟩
        have hfp : findHeading hs p = some hpr := by
          have := findHeading_mem hs hwf.2.1 hpr hprmem
          rw [hprid] at this
          exact this
        have hlvl := ih p hpr hfp hanc
        have hchild : hx ∈ childrenOf hs hpr.heading_id := by
          unfold childrenOf
          refine List.mem_filter.mpr ⟨hxmem, ?_⟩
          simp [hp, hprid]
        rw [nthLevel_succ_right]
        exact List.mem_flatMap.mpr ⟨hpr, hlvl, hchild⟩

theorem ancIter_le (hs : List Heading) (hwf : headingsWF hs) :
    ∀ (k x y : Nat), ancIter hs k x = some y → y + k ≤ x := by
  intro k
  induction k with
  | zero =>
      intro x y h
      have : (some x : Option Nat) = some y := h
      simp at this
      omega
  | succ k ih =>
      intro x y h
      rw [ancIter_succ] at h
      rcases hf : findHeading hs x with _ | hx
      · rw [hf] at h; cases h
      · rw [hf] at h
        dsimp only at h
        rcases hp : hx.parent_id with _ | p
        · rw [hp] at h; cases h
        · rw [hp] at h
          have h1 := ih p y h
          have hxmem := findHeading_eq_some hs x hx hf
          have hlt := (hwf.2.2 hx hxmem.1 p (by rw [hp]; simp)).1
          have hxe := hxmem.2
          omega

/-- C7: for every heading h stored in a well-formed heading tree, the
resolved path contains h itself at index 0 and nothing else at index 0; every
negative-index row is the i-th proper ancestor of h carrying index -1 - i, so
ancestor indices are strictly negative and increase toward h with the root
most negative, and every proper ancestor appears that way; every
positive-index row is a descendant whose upward parent chain reaches h in
exactly index steps, and every stored descendant at depth k appears with
index k; and the output is sorted by index ascending with heading-id
ascending on ties. -/
theorem C7_resolve_path_structure (st : Store) (h : Heading)
    (hwf : headingsWF st.headings) (hmem : h ∈ st.headings) :
    ((⟨h.heading_id, h.heading, 0⟩ : HierRow) ∈ get_hierarchy st h.heading_id) ∧
    (∀ r ∈ get_hierarchy st h.heading_id, r.index = 0 → r.heading_id = h.heading_id) ∧
    (∀ r ∈ get_hierarchy st h.heading_id, r.index < 0 →
      ∃ i, ∃ hi : i < (ancChain st h).length,
        r = ⟨((ancChain st h).get ⟨i, hi⟩).heading_id,
             ((ancChain st h).get ⟨i, hi⟩).heading, -1 - i⟩) ∧
    (∀ i, ∀ hi : i < (ancChain st h).length,
      (⟨((ancChain st h).get ⟨i, hi⟩).heading_id,
        ((ancChain st h).get ⟨i, hi⟩).heading, -1 - i⟩ : HierRow)
          ∈ get_hierarchy st h.heading_id) ∧
    (∀ r ∈ get_hierarchy st h.heading_id, 0 < r.index →
      ancIter st.headings r.index.toNat r.heading_id = some h.heading_id) ∧
    (∀ (k : Nat) (x : Heading), findHeading st.headings x.heading_id = some x →
      ancIter st.headings k x.heading_id = some h.heading_id →
      (⟨x.heading_id, x.heading, (k : Int)⟩ : HierRow) ∈ get_hierarchy st h.heading_id) ∧
    (get_hierarchy st h.heading_id).Pairwise hierLE := by
  have hrows : get_hierarchy st h.heading_id
      = (descendLevels st.headings [h] (maxHeadingId st.headings + 1) 0 ++
          ancestorRows st.headings h (maxHeadingId st.headings + 1) (-1)).insertionSort
            hierLE := by
    unfold get_hierarchy
    rw [findHeading_mem st.headings hwf.2.1 h hmem]
  have hup_eq : ancestorRows st.headings h (maxHeadingId st.headings + 1) (-1)
      = attachIdx (ancChain st h) (-1) :=
    ancestorRows_eq_attach st.headings (maxHeadingId st.headings + 1) h (-1)
  have hmemiff : ∀ r : HierRow, r ∈ get_hierarchy st h.heading_id ↔
      r ∈ descendLevels st.headings [h] (maxHeadingId st.headings + 1) 0 ∨
        r ∈ attachIdx (ancChain st h) (-1) := by
    intro r
    rw [hrows, List.mem_insertionSort, List.mem_append, hup_eq]
  refine ⟨?_, ?_, ?_, ?_, ?_, ?_, ?_⟩
  · refine (hmemiff _).mpr (Or.inl ?_)
    have h0 : h ∈ nthLevel st.headings [h] 0 := by
      simp [nthLevel]
    have := descendLevels_mem_of_level st.headings 0 (maxHeadingId st.headings + 1)
      [h] 0 h (by omega) h0
    simpa using this
  · intro r hr hidx
    rcases (hmemiff r).mp hr with hd | hu
    · rcases descendLevels_mem st.headings _ [h] 0 r hd with ⟨k, hk, x, hx, rfl⟩
      have hk0 : k = 0 := by
        simp only [HierRow.mk.injEq] at hidx ⊢
        omega
      subst hk0
      have hxh : x = h := by simpa [nthLevel] using hx
      subst hxh
      rfl
    · have := attachIdx_index_le (ancChain st h) (-1) r hu
      omega
  · intro r hr hidx
    rcases (hmemiff r).mp hr with hd | hu
    · have := descendLevels_index_ge st.headings _ [h] 0 r hd
      omega
    · exact attachIdx_mem (ancChain st h) (-1) r hu
  · intro i hi
    refine (hmemiff _).mpr (Or.inr ?_)
    have := attachIdx_mem_of_get (ancChain st h) (-1) i hi
    have harith : (-1 : Int) - i = -1 - i := rfl
    simpa using this
  · intro r hr hidx
    rcases (hmemiff r).mp hr with hd | hu
    · rcases descendLevels_mem st.headings _ [h] 0 r hd with ⟨k, hk, x, hx, rfl⟩
      have htn : ((⟨x.heading_id, x.heading, 0 + (k : Int)⟩ : HierRow).index).toNat = k := by
        simp
      rw [htn]
      rcases nthLevel_ancIter st.headings hwf k [h] x hx with ⟨y, hy, hanc⟩
      have hyh : y = h := by simpa using hy
      subst hyh
      exact hanc
    · have := attachIdx_index_le (ancChain st h) (-1) r hu
      omega
  · intro k x hfx hanc
    have hxin := (findHeading_eq_some st.headings x.heading_id x hfx).1
    have hkb : h.heading_id + k ≤ x.heading_id :=
      ancIter_le st.headings hwf k x.heading_id h.heading_id hanc
    have hhpos : 1 ≤ h.heading_id := hwf.1 h hmem
    have hxmax : x.heading_id ≤ maxHeadingId st.headings := le_maxHeadingId _ x hxin
    have hkf : k < maxHeadingId st.headings + 1 := by omega
    have hlvl := ancIter_nthLevel st.headings hwf h hmem k x.heading_id x hfx hanc
    have := descendLevels_mem_of_level st.headings k (maxHeadingId st.headings + 1)
      [h] 0 x hkf hlvl
    refine (hmemiff _).mpr (Or.inl ?_)
    simpa using this
  · rw [hrows]
    exact List.sorted_insertionSort hierLE _

/-- C7 witness: the full structure statement instantiated on sampleStore at
the heading Background, whose chain is ROOT, Intro, Background with one child
Detail. -/
theorem C7_resolve_path_structure_witness :
    ((⟨3, "Background", 0⟩ : HierRow) ∈ get_hierarchy sampleStore 3) ∧
    (∀ r ∈ get_hierarchy sampleStore 3, r.index = 0 → r.heading_id = 3) ∧
    (∀ r ∈ get_hierarchy sampleStore 3, r.index < 0 →
      ∃ i, ∃ hi : i < (ancChain sampleStore ⟨3, "Background", some 2⟩).length,
        r = ⟨((ancChain sampleStore ⟨3, "Background", some 2⟩).get ⟨i, hi⟩).heading_id,
             ((ancChain sampleStore ⟨3, "Background", some 2⟩).get ⟨i, hi⟩).heading,
             -1 - i⟩) ∧
    (∀ i, ∀ hi : i < (ancChain sampleStore ⟨3, "Background", some 2⟩).length,
      (⟨((ancChain sampleStore ⟨3, "Background", some 2⟩).get ⟨i, hi⟩).heading_id,
        ((ancChain sampleStore ⟨3, "Background", some 2⟩).get ⟨i, hi⟩).heading,
        -1 - i⟩ : HierRow) ∈ get_hierarchy sampleStore 3) ∧
    (∀ r ∈ get_hierarchy sampleStore 3, 0 < r.index →
      ancIter sampleStore.headings r.index.toNat r.heading_id = some 3) ∧
    (∀ (k : Nat) (x : Heading), findHeading sampleStore.headings x.heading_id = some x →
      ancIter sampleStore.headings k x.heading_id = some 3 →
      (⟨x.heading_id, x.heading, (k : Int)⟩ : HierRow) ∈ get_hierarchy sampleStore 3) ∧
    (get_hierarchy sampleStore 3).Pairwise hierLE :=
  C7_resolve_path_structure sampleStore ⟨3, "Background", some 2⟩
    (by unfold headingsWF; decide) (by decide)

theorem get_hierarchy_eq (st : Store) (h : Heading) (hwf : headingsWF st.headings)
    (hmem : h ∈ st.headings) :
    get_hierarchy st h.heading_id
      = (descendLevels st.headings [h] (maxHeadingId st.headings + 1) 0 ++
          attachIdx (ancChain st h) (-1)).insertionSort hierLE := by
  unfold get_hierarchy
  rw [findHeading_mem st.headings hwf.2.1 h hmem]
  show (descendLevels st.headings [h] (maxHeadingId st.headings + 1) 0 ++
      ancestorRows st.headings h (maxHeadingId st.headings + 1) (-1)).insertionSort hierLE = _
  rw [ancestorRows_eq_attach st.headings (maxHeadingId st.headings + 1) h (-1)]
  rfl

theorem hierarchy_filter_le_zero (st : Store) (h : Heading)
    (hwf : headingsWF st.headings) (hmem : h ∈ st.headings) :
    (get_hierarchy st h.heading_id).filter (fun r => decide (r.index ≤ 0))
      = (attachIdx (ancChain st h) (-1)).reverse ++ [⟨h.heading_id, h.heading, 0⟩] := by
  have hfd : (descendLevels st.headings [h] (maxHeadingId st.headings + 1) 0).filter
      (fun r => decide (r.index ≤ 0)) = [⟨h.heading_id, h.heading, 0⟩] := by
    rw [descendLevels_succ, List.filter_append]
    have h1 : ([h].map (fun x => (⟨x.heading_id, x.heading, 0⟩ : HierRow))).filter
        (fun r => decide (r.index ≤ 0)) = [⟨h.heading_id, h.heading, 0⟩] := by
      simp
    have h2 : (descendLevels st.headings
        ([h].flatMap (fun x => childrenOf st.headings x.heading_id))
        (maxHeadingId st.headings) (0 + 1)).filter (fun r => decide (r.index ≤ 0)) = [] := by
      rw [List.filter_eq_nil_iff]
      intro r hr
      have := descendLevels_index_ge st.headings _ _ (0 + 1) r hr
      simp
      omega
    rw [h1, h2, List.append_nil]
  have hfu : (attachIdx (ancChain st h) (-1)).filter (fun r => decide (r.index ≤ 0))
      = attachIdx (ancChain st h) (-1) := by
    rw [List.filter_eq_self]
    intro r hr
    have := attachIdx_index_le (ancChain st h) (-1) r hr
    simp
    omega
  have hperm2 : List.Perm
      ((get_hierarchy st h.heading_id).filter (fun r => decide (r.index ≤ 0)))
      ((⟨h.heading_id, h.heading, 0⟩ : HierRow) :: attachIdx (ancChain st h) (-1)) := by
    rw [get_hierarchy_eq st h hwf hmem]
    have hp1 := (List.perm_insertionSort hierLE
      (descendLevels st.headings [h] (maxHeadingId st.headings + 1) 0 ++
        attachIdx (ancChain st h) (-1))).filter (fun r => decide (r.index ≤ 0))
    rw [List.filter_append, hfd, hfu] at hp1
    exact hp1
  have hsorted_filt : ((get_hierarchy st h.heading_id).filter
      (fun r => decide (r.index ≤ 0))).Pairwise hierLE := by
    have hs := List.sorted_insertionSort hierLE
      (descendLevels st.headings [h] (maxHeadingId st.headings + 1) 0 ++
        attachIdx (ancChain st h) (-1))
    rw [get_hierarchy_eq st h hwf hmem]
    exact hs.sublist (List.filter_sublist _)
  have hne0 : ((⟨h.heading_id, h.heading, 0⟩ : HierRow) ::
      attachIdx (ancChain st h) (-1)).Pairwise (fun r1 r2 => r1.index ≠ r2.index) := by
    refine List.pairwise_cons.mpr ⟨?_, ?_⟩
    · intro r hr
      have := attachIdx_index_le (ancChain st h) (-1) r hr
      show (0 : Int) ≠ r.index
      omega
    · exact (attachIdx_pairwise (ancChain st h) (-1)).imp (fun hlt => by omega)
  have hne_filt : ((get_hierarchy st h.heading_id).filter
      (fun r => decide (r.index ≤ 0))).Pairwise (fun r1 r2 => r1.index ≠ r2.index) :=
    (hperm2.pairwise_iff (fun hab => Ne.symm hab)).mpr hne0
  have hlt_filt : ((get_hierarchy st h.heading_id).filter
      (fun r => decide (r.index ≤ 0))).Pairwise hierLT := by
    refine (hsorted_filt.and hne_filt).imp ?_
    intro a b hab
    rcases hab with ⟨hle, hne⟩
    unfold hierLE at hle
    unfold hierLT
    omega
  have hT_perm : List.Perm
      ((attachIdx (ancChain st h) (-1)).reverse ++ [(⟨h.heading_id, h.heading, 0⟩ : HierRow)])
      ((⟨h.heading_id, h.heading, 0⟩ : HierRow) :: attachIdx (ancChain st h) (-1)) := by
    refine List.Perm.trans List.perm_append_comm ?_
    show List.Perm ((⟨h.heading_id, h.heading, 0⟩ : HierRow) ::
      (attachIdx (ancChain st h) (-1)).reverse) _
    exact (List.reverse_perm _).cons _
  have hT_sorted : ((attachIdx (ancChain st h) (-1)).reverse ++
      [(⟨h.heading_id, h.heading, 0⟩ : HierRow)]).Pairwise hierLT := by
    rw [List.pairwise_append]
    refine ⟨?_, List.pairwise_singleton _ _, ?_⟩
    · rw [List.pairwise_reverse]
      exact (attachIdx_pairwise (ancChain st h) (-1)).imp (fun hlt => hlt)
    · intro a ha b hb
      rw [List.mem_reverse] at ha
      have h1 := attachIdx_index_le (ancChain st h) (-1) a ha
      rcases List.mem_singleton.mp hb with rfl
      show a.index < (0 : Int)
      omega
  exact List.eq_of_perm_of_sorted (hperm2.trans hT_perm.symm) hlt_filt hT_sorted

theorem displayPath_eq (st : Store) (h : Heading) (hwf : headingsWF st.headings)
    (hmem : h ∈ st.headings) :
    displayPath st (some h.heading_id)
      = some (String.intercalate " > "
          (((chainToRoot st.headings (maxHeadingId st.headings + 1) h).reverse).map
            (fun x => x.heading))) := by
  show (let ts := ((get_hierarchy st h.heading_id).filter
        (fun r => decide (r.index ≤ 0))).map (fun r => r.heading)
      if ts.isEmpty then none else some (String.intercalate " > " ts)) = _
  rw [hierarchy_filter_le_zero st h hwf hmem]
  rw [chainToRoot_eq_cons st.headings (maxHeadingId st.headings + 1) h]
  show (if (((attachIdx (ancChain st h) (-1)).reverse ++
        [(⟨h.heading_id, h.heading, 0⟩ : HierRow)]).map (fun r => r.heading)).isEmpty
      then none
      else some (String.intercalate " > " (((attachIdx (ancChain st h) (-1)).reverse ++
        [(⟨h.heading_id, h.heading, 0⟩ : HierRow)]).map (fun r => r.heading)))) = _
  rw [List.map_append, List.map_reverse, attachIdx_map_heading]
  simp only [List.reverse_cons, List.map_append, List.map_reverse, List.map_cons,
    List.map_nil]
  have hcond : ¬ (((ancChain st h).map (fun x => x.heading)).reverse ++
      [h.heading]).isEmpty = true := by
    simp
  rw [if_neg hcond]
  rfl

theorem group_sentences_by_heading_eq (st : Store) (S : Finset Nat) (hne : S ≠ ∅) :
    group_sentences_by_heading st S
      = (((st.sentences.filter (fun r => decide (r.sentence_id ∈ S))).map
          (fun r => r.heading_id)).dedup).map (fun h =>
        { heading_id := h
          heading := displayPath st h
          sentence_ids := ((((st.sentences.filter (fun r => decide (r.sentence_id ∈ S))).filter
            (fun r => r.heading_id == h)).map
            (fun r => r.sentence_id)).dedup).insertionSort (fun a b => a ≤ b)
          first_sentence_id := ((st.sentences.filter (fun r => r.heading_id == h)).map
            (fun r => r.sentence_id)).min?
          last_sentence_id := ((st.sentences.filter (fun r => r.heading_id == h)).map
            (fun r => r.sentence_id)).max? }) := by
  unfold group_sentences_by_heading
  rw [if_neg hne]

/-- C9: for every non-empty set of stored sentence ids over a well-formed
store, grouping returns one group per distinct heading among the matched
sentences; each group's member sentence ids are exactly the matched ids filed
under that heading, sorted ascending and deduplicated; and each group's
display path is the heading's self-and-ancestor chain joined top-down, root
first, with the separator " > ". -/
theorem C9_group_by_heading (st : Store) (S : Finset Nat)
    (hwf : headingsWF st.headings) (hswf : sentencesWF st)
    (_hstored : ∀ s ∈ S, ∃ r ∈ st.sentences, r.sentence_id = s) (hne : S ≠ ∅) :
    ((group_sentences_by_heading st S).map (fun g => g.heading_id)).Nodup ∧
    (∀ hid : Option Nat,
      hid ∈ (group_sentences_by_heading st S).map (fun g => g.heading_id) ↔
        ∃ r ∈ st.sentences, r.sentence_id ∈ S ∧ r.heading_id = hid) ∧
    ∀ g ∈ group_sentences_by_heading st S,
      g.sentence_ids.Pairwise (fun a b => a ≤ b) ∧
      g.sentence_ids.Nodup ∧
      (∀ i : Nat, i ∈ g.sentence_ids ↔
        ∃ r ∈ st.sentences, r.sentence_id = i ∧ i ∈ S ∧ r.heading_id = g.heading_id) ∧
      ∃ hh ∈ st.headings, g.heading_id = some hh.heading_id ∧
        g.heading = some (String.intercalate " > "
          (((chainToRoot st.headings (maxHeadingId st.headings + 1) hh).reverse).map
            (fun x => x.heading))) := by
  rw [group_sentences_by_heading_eq st S hne]
  refine ⟨?_, ?_, ?_⟩
  · rw [List.map_map]
    refine List.Nodup.map ?_ (List.nodup_dedup _)
    intro a b hab
    exact hab
  · intro hid
    constructor
    · intro hmem2
      rcases List.mem_map.mp hmem2 with ⟨g, hgm, hgid⟩
      rcases List.mem_map.mp hgm with ⟨h0, hh0, rfl⟩
      rcases List.mem_map.mp (List.mem_dedup.mp hh0) with ⟨r, hrm, hrh⟩
      rcases List.mem_filter.mp hrm with ⟨hr1, hr2⟩
      refine ⟨r, hr1, of_decide_eq_true hr2, ?_⟩
      rw [hrh]
      exact hgid
    · rintro ⟨r, hr1, hr2, hr3⟩
      refine List.mem_map.mpr ⟨_, List.mem_map.mpr ⟨r.heading_id,
        List.mem_dedup.mpr (List.mem_map.mpr ⟨r,
          List.mem_filter.mpr ⟨hr1, decide_eq_true hr2⟩, rfl⟩), rfl⟩, ?_⟩
      exact hr3
  · intro g hg
    rcases List.mem_map.mp hg with ⟨h0, hh0, rfl⟩
    have hh0m := List.mem_dedup.mp hh0
    rcases List.mem_map.mp hh0m with ⟨r0, hr0m, hr0h⟩
    have hr0s : r0 ∈ st.sentences := (List.mem_filter.mp hr0m).1
    rcases hswf r0 hr0s with ⟨hh, hhmem, hheq⟩
    refine ⟨?_, ?_, ?_, ?_⟩
    · exact List.sorted_insertionSort _ _
    · exact (List.perm_insertionSort _ _).nodup_iff.mpr (List.nodup_dedup _)
    · intro i
      constructor
      · intro hi
        have hi2 := List.mem_dedup.mp ((List.mem_insertionSort _).mp hi)
        rcases List.mem_map.mp hi2 with ⟨r, hrm, hrid⟩
        rcases List.mem_filter.mp hrm with ⟨hrm2, hrbeq⟩
        rcases List.mem_filter.mp hrm2 with ⟨hr1, hr2⟩
        have hrh : r.heading_id = h0 := by simpa using hrbeq
        exact ⟨r, hr1, hrid, hrid ▸ of_decide_eq_true hr2, hrh⟩
      · rintro ⟨r, hr1, hr2, hr3, hr4⟩
        refine (List.mem_insertionSort _).mpr (List.mem_dedup.mpr (List.mem_map.mpr
          ⟨r, List.mem_filter.mpr ⟨List.mem_filter.mpr
            ⟨hr1, decide_eq_true (hr2 ▸ hr3)⟩, ?_⟩, hr2⟩))
        have hrh : r.heading_id = h0 := hr4
        simpa using hrh
    · refine ⟨hh, hhmem, ?_, ?_⟩
      · show h0 = some hh.heading_id
        rw [← hr0h]
        exact hheq
      · show displayPath st h0 = _
        rw [show h0 = some hh.heading_id from hr0h ▸ hheq]
        exact displayPath_eq st hh hwf hhmem

/-- C9 witness: grouping the two stored sentence ids of sampleStore, which
are filed under the headings Background and ROOT. -/
theorem C9_group_by_heading_witness :
    ((group_sentences_by_heading sampleStore {1, 2}).map (fun g => g.heading_id)).Nodup ∧
    (∀ hid : Option Nat,
      hid ∈ (group_sentences_by_heading sampleStore {1, 2}).map (fun g => g.heading_id) ↔
        ∃ r ∈ sampleStore.sentences, r.sentence_id ∈ ({1, 2} : Finset Nat) ∧
          r.heading_id = hid) ∧
    ∀ g ∈ group_sentences_by_heading sampleStore {1, 2},
      g.sentence_ids.Pairwise (fun a b => a ≤ b) ∧
      g.sentence_ids.Nodup ∧
      (∀ i : Nat, i ∈ g.sentence_ids ↔
        ∃ r ∈ sampleStore.sentences, r.sentence_id = i ∧ i ∈ ({1, 2} : Finset Nat) ∧
          r.heading_id = g.heading_id) ∧
      ∃ hh ∈ sampleStore.headings, g.heading_id = some hh.heading_id ∧
        g.heading = some (String.intercalate " > "
          (((chainToRoot sampleStore.headings (maxHeadingId sampleStore.headings + 1)
              hh).reverse).map (fun x => x.heading))) :=
  C9_group_by_heading sampleStore {1, 2} (by unfold headingsWF; decide)
    (by unfold sentencesWF; decide) (by decide) (by decide)

end SemanticKB
